import Mathlib

set_option maxHeartbeats 1000000

namespace CVCraft

/-!
Shallow embedding of the cvcraft content pipeline (src/parser.ts, src/themes.ts,
src/css-theme-manager.ts, src/word-converter.ts).  Strings are modelled as
`List Char`; JavaScript regular expressions are modelled by explicit scanning
functions that reproduce the engine's leftmost-match and backtracking
behaviour on the character classes the source uses.
-/

/-- JS `\s` / `trim` whitespace test, restricted to the ASCII range the
sources manipulate (space, tab, CR, LF, vertical tab, form feed). -/
def jsWS (c : Char) : Bool :=
  c.isWhitespace || c = '\x0b' || c = '\x0c'

/-- JS `String.prototype.trim` on character lists. -/
def trimL (l : List Char) : List Char :=
  ((l.dropWhile jsWS).reverse.dropWhile jsWS).reverse

/-- JS `str.split('\n')`: split at every newline, keeping empty pieces
(`"".split('\n')` is `[""]`). -/
def splitLines : List Char → List (List Char)
  | [] => [[]]
  | c :: rest =>
    if c = '\n' then [] :: splitLines rest
    else (c :: (splitLines rest).headI) :: (splitLines rest).tail

/-- `Section.type` values from src/types.ts (the parser only ever builds the
first three). -/
inductive SectionType
  | header
  | paragraph
  | list
  | table
  | code
deriving DecidableEq, Repr

/-- `Section` from src/types.ts: classified block with optional heading level
and optional list items. -/
structure Section where
  type : SectionType
  content : List Char
  level : Option Nat := none
  items : Option (List (List Char)) := none
deriving DecidableEq, Repr

/-- `line.match(/^#+/)?.[0].length || 1` for a line that starts with `#`
(the `|| 1` branch fires when the match length is 0, which cannot happen,
but is modelled anyway). -/
def headerLevel (l : List Char) : Nat :=
  let n := (l.takeWhile (fun c => c = '#')).length
  if n = 0 then 1 else n

/-- `line.replace(/^#+\s*/, '')`: strip the leading run of `#` and the
whitespace after it; a line with no leading `#` is returned unchanged
(no match). -/
def stripHeaderMarker (l : List Char) : List Char :=
  if l.head? = some '#' then (l.dropWhile (fun c => c = '#')).dropWhile jsWS
  else l

/-- Tail of the `/^\d+\./` test: zero or more further digits, then a dot. -/
def ordAfterDigits : List Char → Bool
  | [] => false
  | c :: r => if c.isDigit then ordAfterDigits r else c = '.'

/-- `line.match(/^\d+\.)/`: one or more digits followed by a dot, anchored at
the start of the line. -/
def ordMarker : List Char → Bool
  | [] => false
  | c :: _r => c.isDigit && ordAfterDigits _r

/-- The list-item guard of `parseSections`:
`line.startsWith('- ') || line.startsWith('* ') || line.match(/^\d+\./)`. -/
def isListLine (l : List Char) : Bool :=
  ['-', ' '].isPrefixOf l || ['*', ' '].isPrefixOf l || ordMarker l

/-- Consume `\d*\.` (remaining digits of `\d+` then the dot); `some rest`
returns the characters after the dot. -/
def chompOrdAfter : List Char → Option (List Char)
  | [] => none
  | c :: r =>
    if c.isDigit then chompOrdAfter r
    else if c = '.' then some r else none

/-- Leftmost match of `\d+\.\s*` anywhere in the line, removed; chars before
the match are kept, chars of the match (digits, dot, following whitespace)
are dropped.  No match leaves the line unchanged. -/
def findStripOrd : List Char → List Char
  | [] => []
  | c :: r =>
    if c.isDigit then
      match chompOrdAfter r with
      | some rest => rest.dropWhile jsWS
      | none => c :: findStripOrd r
    else c :: findStripOrd r

/-- `line.replace(/^[-*]\s*|\d+\.\s*/, '')`: at position 0 the anchored
alternative `^[-*]\s*` is tried first; otherwise the unanchored `\d+\.\s*`
is replaced at its leftmost occurrence. -/
def stripMarker : List Char → List Char
  | [] => []
  | c :: r =>
    if c = '-' || c = '*' then r.dropWhile jsWS
    else findStripOrd (c :: r)

/-- Close the open section, if any, by appending it to the output list
(the `if (currentSection) sections.push(currentSection)` idiom). -/
def pushCur (sections : List Section) (cur : Option Section) : List Section :=
  match cur with
  | some s => sections ++ [s]
  | none => sections

/-- `if (currentSection.items) currentSection.items.push(item)`. -/
def appendItem (s : Section) (item : List Char) : Section :=
  { s with
    items :=
      match s.items with
      | some l => some (l ++ [item])
      | none => none }

/-- One iteration of the `for (const line of lines)` loop of
`MarkdownParser.parseSections` (state = output sections so far plus the
nullable current section). -/
def processLine (st : List Section × Option Section) (line : List Char) :
    List Section × Option Section :=
  let sections := st.1
  let cur := st.2
  if line.head? = some '#' then
    (pushCur sections cur,
     some { type := .header, content := stripHeaderMarker line,
            level := some (headerLevel line), items := none })
  else if isListLine line then
    match cur with
    | some c =>
      if c.type = .list then
        (sections, some (appendItem c (stripMarker line)))
      else
        (sections ++ [c],
         some (appendItem ⟨.list, [], none, some []⟩ (stripMarker line)))
    | none =>
      (sections, some (appendItem ⟨.list, [], none, some []⟩ (stripMarker line)))
  else if (trimL line).isEmpty then
    (sections, cur)
  else
    match cur with
    | some c =>
      if c.type = .header then
        (sections,
         some { c with type := .paragraph, content := c.content ++ '\n' :: line })
      else if c.type = .list then
        (sections ++ [c], some ⟨.paragraph, line, none, none⟩)
      else
        (sections, some { c with content := c.content ++ '\n' :: line })
    | none => (sections, some ⟨.paragraph, line, none, none⟩)

/-- `MarkdownParser.parseSections` on character lists: fold the line
classifier over the split lines, then push the final open section. -/
def parseSectionsL (md : List Char) : List Section :=
  let st := (splitLines md).foldl processLine ([], none)
  pushCur st.1 st.2

/-- The CLOSING `\s*\n` fragment of the front-matter regex
(`...\n---\s*\n([\s\S]*)$`): greedy whitespace then a mandatory newline.
Because the following `[\s\S]*$` matches anything, the greedy choice is
final here: the match consumes through the LAST newline of the maximal
whitespace prefix (and fails iff that prefix contains no newline); returns
the remainder, which becomes group 2. -/
def consumeWsNewline : List Char → Option (List Char)
  | [] => none
  | c :: r =>
    if c = '\n' then
      match consumeWsNewline r with
      | some r2 => some r2
      | none => some r
    else if jsWS c then consumeWsNewline r
    else none

/-- Scan for the closing delimiter `\n---\s*\n` of
`/^---\s*\n([\s\S]*?)\n---\s*\n([\s\S]*)$/`: the lazy group makes the
leftmost closing position win; returns (captured group 1 so far, group 2). -/
def fmScanClose : List Char → Option (List Char × List Char)
  | [] => none
  | c :: r =>
    (if ['\n', '-', '-', '-'].isPrefixOf (c :: r) then
      (consumeWsNewline ((c :: r).drop 4)).map fun b => (([] : List Char), b)
    else none).orElse fun _ =>
      (fmScanClose r).map fun p => (c :: p.1, p.2)

/-- The OPENING `\s*\n` of the front-matter regex, with the engine's full
backtracking: every newline inside the leading whitespace run is a
candidate for the mandatory `\n`, tried greedily (the latest newline
first); for each candidate the rest of the pattern (the `fmScanClose`
search) runs on the remainder, and the first candidate whose continuation
succeeds wins.  A non-whitespace character before any newline means no
candidate exists. -/
def fmOpenScan : List Char → Option (List Char × List Char)
  | [] => none
  | c :: r =>
    if c = '\n' then
      match fmOpenScan r with
      | some p => some p
      | none => fmScanClose r
    else if jsWS c then fmOpenScan r
    else none

/-- Full match of the front-matter regex
`/^---\s*\n([\s\S]*?)\n---\s*\n([\s\S]*)$/` against the whole input:
`some (yaml, body)` on success. -/
def extractFrontMatterL (md : List Char) : Option (List Char × List Char) :=
  if ['-', '-', '-'].isPrefixOf md then fmOpenScan (md.drop 3) else none

/-- First index of `:` in a line (JS `line.indexOf(':')`, with absence as
`none` instead of −1). -/
def colonIdx : List Char → Option Nat
  | [] => none
  | c :: r => if c = ':' then some 0 else (colonIdx r).map (· + 1)

/-- JS object insertion semantics for `metadata[key] = value`: overwrite in
place if the key exists, else append. -/
def metaUpsert (m : List (List Char × List Char)) (k v : List Char) :
    List (List Char × List Char) :=
  if m.any (fun p => p.1 == k) then
    m.map fun p => if p.1 == k then (k, v) else p
  else m ++ [(k, v)]

/-- One line of the simple YAML key/value loop: split on the FIRST colon,
requiring the colon index to be strictly positive; trim key and value. -/
def parseMetaLine (m : List (List Char × List Char)) (line : List Char) :
    List (List Char × List Char) :=
  match colonIdx line with
  | some i =>
    if 0 < i then metaUpsert m (trimL (line.take i)) (trimL (line.drop (i + 1)))
    else m
  | none => m

/-- `MarkdownParser.extractFrontMatter`: returns (body content, metadata).
No regex match leaves the whole input as content with empty metadata. -/
def MarkdownParser.extractFrontMatter (markdown : String) :
    List Char × List (List Char × List Char) :=
  match extractFrontMatterL markdown.data with
  | none => (markdown.data, [])
  | some (yaml, content) => (content, (splitLines yaml).foldl parseMetaLine [])

/-- `ParsedContent` from src/types.ts, without the `html` field: the HTML
string is produced by the external markdown-it library, which is outside
this repository. -/
structure ParsedContent where
  metadata : List (List Char × List Char)
  sections : List Section
deriving DecidableEq, Repr

/-- `MarkdownParser.parse`: extract front matter, then segment the body into
sections. -/
def MarkdownParser.parse (markdown : String) : ParsedContent :=
  let fm := MarkdownParser.extractFrontMatter markdown
  { metadata := fm.2, sections := parseSectionsL fm.1 }

/-- `MarkdownParser.parseSections` at the string level. -/
def MarkdownParser.parseSections (markdown : String) : List Section :=
  parseSectionsL markdown.data

/-! ### Supporting lemmas about the section state machine -/

theorem mem_of_mem_dropWhileL {p : Char → Bool} {l : List Char} {c : Char}
    (h : c ∈ List.dropWhile p l) : c ∈ l := by
  have h2 := List.mem_append_right (List.takeWhile p l) h
  rwa [List.takeWhile_append_dropWhile] at h2

theorem mem_dropWhile_of_not_ws {p : Char → Bool} {l : List Char} {c : Char}
    (hc : c ∈ l) (hnp : p c = false) : c ∈ List.dropWhile p l := by
  have hsplit := List.takeWhile_append_dropWhile p l
  have h2 : c ∈ List.takeWhile p l ++ List.dropWhile p l := by rw [hsplit]; exact hc
  rcases List.mem_append.mp h2 with h3 | h3
  · rw [List.mem_takeWhile_imp h3] at hnp; cases hnp
  · exact h3

theorem trimL_eq_nil_iff (l : List Char) :
    trimL l = [] ↔ ∀ c ∈ l, jsWS c = true := by
  unfold trimL
  rw [List.reverse_eq_nil_iff, List.dropWhile_eq_nil_iff]
  constructor
  · intro h c hc
    rcases Bool.eq_false_or_eq_true (jsWS c) with ht | hf
    · exact ht
    · have h2 := h c (List.mem_reverse.mpr (mem_dropWhile_of_not_ws hc hf))
      exact absurd h2 (by rw [hf]; decide)
  · intro h c hc
    exact h c (mem_of_mem_dropWhileL (List.mem_reverse.mp hc))

theorem splitLines_ne_nil (l : List Char) : splitLines l ≠ [] := by
  cases l with
  | nil => simp [splitLines]
  | cons c r =>
    by_cases hc : c = '\n'
    · simp [splitLines, hc]
    · simp [splitLines, hc]

theorem splitLines_chars {l line : List Char} (h : line ∈ splitLines l) :
    ∀ c ∈ line, c ∈ l := by
  induction l generalizing line with
  | nil =>
    simp only [splitLines, List.mem_singleton] at h
    subst h; simp
  | cons d r ih =>
    by_cases hd : d = '\n'
    · rw [splitLines, if_pos hd] at h
      rcases List.mem_cons.mp h with h1 | h2
      · subst h1; intro c hc; cases hc
      · intro c hc; exact List.mem_cons_of_mem d (ih h2 c hc)
    · rw [splitLines, if_neg hd] at h
      cases hsp : splitLines r with
      | nil => exact absurd hsp (splitLines_ne_nil r)
      | cons a b =>
        rw [hsp] at h
        simp only [List.headI, List.tail_cons] at h
        rcases List.mem_cons.mp h with h1 | h2
        · subst h1
          intro c hc
          rcases List.mem_cons.mp hc with rfl | hc2
          · exact List.mem_cons_self _ _
          · have ha : a ∈ splitLines r := by rw [hsp]; exact List.mem_cons_self a b
            exact List.mem_cons_of_mem d (ih ha c hc2)
        · intro c hc
          have hb : line ∈ splitLines r := by rw [hsp]; exact List.mem_cons_of_mem a h2
          exact List.mem_cons_of_mem d (ih hb c hc)

theorem exists_line_of_mem {l : List Char} {c : Char} (hc : c ∈ l) (hne : c ≠ '\n') :
    ∃ line ∈ splitLines l, c ∈ line := by
  induction l with
  | nil => cases hc
  | cons d r ih =>
    rcases List.mem_cons.mp hc with rfl | hmem
    · refine ⟨c :: (splitLines r).headI, ?_, List.mem_cons_self _ _⟩
      rw [splitLines, if_neg hne]
      exact List.mem_cons_self _ _
    · rcases ih hmem with ⟨line, hl, hcl⟩
      by_cases hd : d = '\n'
      · exact ⟨line, by rw [splitLines, if_pos hd]; exact List.mem_cons_of_mem _ hl, hcl⟩
      · cases hsp : splitLines r with
        | nil => exact absurd hsp (splitLines_ne_nil r)
        | cons a b =>
          rw [hsp] at hl
          rcases List.mem_cons.mp hl with rfl | hlb
          · refine ⟨d :: line, ?_, List.mem_cons_of_mem _ hcl⟩
            rw [splitLines, if_neg hd, hsp]
            simp only [List.headI, List.tail_cons]
            exact List.mem_cons_self _ _
          · refine ⟨line, ?_, hcl⟩
            rw [splitLines, if_neg hd, hsp]
            simp only [List.headI, List.tail_cons]
            exact List.mem_cons_of_mem _ hlb

theorem isListLine_head {c : Char} {r : List Char} (h : isListLine (c :: r) = true) :
    c = '-' ∨ c = '*' ∨ c.isDigit = true := by
  simp only [isListLine, Bool.or_eq_true] at h
  rcases h with (h | h) | h
  · obtain ⟨t, ht⟩ := List.isPrefixOf_iff_prefix.mp h
    injection ht with h1 _
    exact Or.inl h1.symm
  · obtain ⟨t, ht⟩ := List.isPrefixOf_iff_prefix.mp h
    injection ht with h1 _
    exact Or.inr (Or.inl h1.symm)
  · simp only [ordMarker, Bool.and_eq_true] at h
    exact Or.inr (Or.inr h.1)

theorem jsWS_digit_false {c : Char} (hd : c.isDigit = true) : jsWS c = false := by
  have h1 : ¬ c = ' ' := by rintro rfl; exact absurd hd (by decide)
  have h2 : ¬ c = '\t' := by rintro rfl; exact absurd hd (by decide)
  have h3 : ¬ c = '\x0d' := by rintro rfl; exact absurd hd (by decide)
  have h4 : ¬ c = '\n' := by rintro rfl; exact absurd hd (by decide)
  have h5 : ¬ c = '\x0b' := by rintro rfl; exact absurd hd (by decide)
  have h6 : ¬ c = '\x0c' := by rintro rfl; exact absurd hd (by decide)
  simp [jsWS, Char.isWhitespace, h1, h2, h3, h4, h5, h6]

theorem isListLine_not_hash {line : List Char} (hmk : isListLine line = true) :
    ¬ line.head? = some '#' := by
  cases line with
  | nil => simp
  | cons c r =>
    intro hq
    rw [List.head?_cons, Option.some.injEq] at hq
    subst hq
    rcases isListLine_head hmk with h | h | h <;> exact absurd h (by decide)

/-! Branch equations for `processLine`, one per source branch. -/

theorem processLine_header (st : List Section × Option Section) (line : List Char)
    (hh : line.head? = some '#') :
    processLine st line =
      (pushCur st.1 st.2,
       some { type := .header, content := stripHeaderMarker line,
              level := some (headerLevel line), items := none }) := by
  simp only [processLine, if_pos hh]

theorem processLine_list_none (st : List Section × Option Section) (line : List Char)
    (hh : ¬ line.head? = some '#') (hl : isListLine line = true) (hc : st.2 = none) :
    processLine st line =
      (st.1, some ⟨.list, [], none, some [stripMarker line]⟩) := by
  simp only [processLine, if_neg hh, hl, if_true, hc, appendItem, List.nil_append]

theorem processLine_list_cur_list (st : List Section × Option Section) (line : List Char)
    (c0 : Section) (hh : ¬ line.head? = some '#') (hl : isListLine line = true)
    (hc : st.2 = some c0) (hty : c0.type = SectionType.list) :
    processLine st line = (st.1, some (appendItem c0 (stripMarker line))) := by
  simp only [processLine, if_neg hh, hl, if_true, hc, if_pos hty]

theorem processLine_list_cur_other (st : List Section × Option Section) (line : List Char)
    (c0 : Section) (hh : ¬ line.head? = some '#') (hl : isListLine line = true)
    (hc : st.2 = some c0) (hty : ¬ c0.type = SectionType.list) :
    processLine st line =
      (st.1 ++ [c0], some ⟨.list, [], none, some [stripMarker line]⟩) := by
  simp only [processLine, if_neg hh, hl, if_true, hc, if_neg hty, appendItem,
    List.nil_append]

theorem processLine_skip (st : List Section × Option Section) (line : List Char)
    (hh : ¬ line.head? = some '#') (hl : ¬ isListLine line = true)
    (ht : (trimL line).isEmpty = true) :
    processLine st line = st := by
  simp only [processLine, if_neg hh, if_neg hl, ht, if_true, Prod.mk.eta]

theorem processLine_para_none (st : List Section × Option Section) (line : List Char)
    (hh : ¬ line.head? = some '#') (hl : ¬ isListLine line = true)
    (ht : ¬ (trimL line).isEmpty = true) (hc : st.2 = none) :
    processLine st line = (st.1, some ⟨.paragraph, line, none, none⟩) := by
  simp only [processLine, if_neg hh, if_neg hl, if_neg ht, hc]

theorem processLine_para_header (st : List Section × Option Section) (line : List Char)
    (c0 : Section) (hh : ¬ line.head? = some '#') (hl : ¬ isListLine line = true)
    (ht : ¬ (trimL line).isEmpty = true) (hc : st.2 = some c0)
    (hty : c0.type = SectionType.header) :
    processLine st line =
      (st.1,
       some { c0 with type := .paragraph, content := c0.content ++ '\n' :: line }) := by
  simp only [processLine, if_neg hh, if_neg hl, if_neg ht, hc, if_pos hty]

theorem processLine_para_list (st : List Section × Option Section) (line : List Char)
    (c0 : Section) (hh : ¬ line.head? = some '#') (hl : ¬ isListLine line = true)
    (ht : ¬ (trimL line).isEmpty = true) (hc : st.2 = some c0)
    (hty : c0.type = SectionType.list) :
    processLine st line = (st.1 ++ [c0], some ⟨.paragraph, line, none, none⟩) := by
  have hty2 : ¬ c0.type = SectionType.header := by rw [hty]; decide
  simp only [processLine, if_neg hh, if_neg hl, if_neg ht, hc, if_neg hty2, if_pos hty]

theorem processLine_para_append (st : List Section × Option Section) (line : List Char)
    (c0 : Section) (hh : ¬ line.head? = some '#') (hl : ¬ isListLine line = true)
    (ht : ¬ (trimL line).isEmpty = true) (hc : st.2 = some c0)
    (hty1 : ¬ c0.type = SectionType.header) (hty2 : ¬ c0.type = SectionType.list) :
    processLine st line =
      (st.1, some { c0 with content := c0.content ++ '\n' :: line }) := by
  simp only [processLine, if_neg hh, if_neg hl, if_neg ht, hc, if_neg hty1, if_neg hty2]

theorem processLine_of_blank {st : List Section × Option Section} {line : List Char}
    (h : ∀ c ∈ line, jsWS c = true) : processLine st line = st := by
  have hh : ¬ line.head? = some '#' := by
    cases line with
    | nil => simp
    | cons c r =>
      intro hq
      rw [List.head?_cons, Option.some.injEq] at hq
      subst hq
      exact absurd (h '#' (List.mem_cons_self _ _)) (by decide)
  have hl : ¬ isListLine line = true := by
    cases line with
    | nil => decide
    | cons c r =>
      intro hb
      have hc := h c (List.mem_cons_self c r)
      rcases isListLine_head hb with rfl | rfl | hd
      · exact absurd hc (by decide)
      · exact absurd hc (by decide)
      · rw [jsWS_digit_false hd] at hc; exact absurd hc (by decide)
  have ht : (trimL line).isEmpty = true :=
    List.isEmpty_iff.mpr ((trimL_eq_nil_iff line).mpr h)
  exact processLine_skip st line hh hl ht

theorem processLine_cur_isSome {st : List Section × Option Section} {line : List Char}
    (h : ∃ c ∈ line, jsWS c = false) : (processLine st line).2.isSome = true := by
  have ht : ¬ (trimL line).isEmpty = true := by
    intro hemp
    rcases h with ⟨c, hc, hw⟩
    have := (trimL_eq_nil_iff line).mp (List.isEmpty_iff.mp hemp) c hc
    rw [hw] at this; exact absurd this (by decide)
  by_cases hh : line.head? = some '#'
  · rw [processLine_header st line hh]; rfl
  · by_cases hl : isListLine line = true
    · cases hc : st.2 with
      | none => rw [processLine_list_none st line hh hl hc]; rfl
      | some c0 =>
        by_cases hty : c0.type = SectionType.list
        · rw [processLine_list_cur_list st line c0 hh hl hc hty]; rfl
        · rw [processLine_list_cur_other st line c0 hh hl hc hty]; rfl
    · cases hc : st.2 with
      | none => rw [processLine_para_none st line hh hl ht hc]; rfl
      | some c0 =>
        by_cases hty1 : c0.type = SectionType.header
        · rw [processLine_para_header st line c0 hh hl ht hc hty1]; rfl
        · by_cases hty2 : c0.type = SectionType.list
          · rw [processLine_para_list st line c0 hh hl ht hc hty2]; rfl
          · rw [processLine_para_append st line c0 hh hl ht hc hty1 hty2]; rfl

/-- Sections, once open or emitted, are never discarded: every loop step
either leaves the state unchanged (blank line) or leaves a section open. -/
theorem processLine_eq_or_isSome (st : List Section × Option Section) (line : List Char) :
    processLine st line = st ∨ (processLine st line).2.isSome = true := by
  by_cases hb : ∃ c ∈ line, jsWS c = false
  · exact Or.inr (processLine_cur_isSome hb)
  · left
    refine processLine_of_blank ?_
    intro c hc
    rcases Bool.eq_false_or_eq_true (jsWS c) with ht | hf
    · exact ht
    · exact absurd ⟨c, hc, hf⟩ hb

def stOK (st : List Section × Option Section) : Prop :=
  st.1 ≠ [] ∨ st.2.isSome = true

theorem stOK_foldl {lines : List (List Char)} {st : List Section × Option Section}
    (h : stOK st) : stOK (lines.foldl processLine st) := by
  induction lines generalizing st with
  | nil => exact h
  | cons x xs ih =>
    refine ih ?_
    rcases processLine_eq_or_isSome st x with he | hs
    · rwa [he]
    · exact Or.inr hs

theorem stOK_foldl_of_mem {lines : List (List Char)} {st : List Section × Option Section}
    {line : List Char} (hl : line ∈ lines) (hnb : ∃ c ∈ line, jsWS c = false) :
    stOK (lines.foldl processLine st) := by
  induction lines generalizing st with
  | nil => cases hl
  | cons x xs ih =>
    rcases List.mem_cons.mp hl with rfl | hm
    · rw [List.foldl_cons]
      exact stOK_foldl (Or.inr (processLine_cur_isSome hnb))
    · rw [List.foldl_cons]
      exact ih hm

theorem foldl_processLine_blank {lines : List (List Char)}
    {st : List Section × Option Section}
    (h : ∀ l ∈ lines, ∀ c ∈ l, jsWS c = true) :
    lines.foldl processLine st = st := by
  induction lines generalizing st with
  | nil => rfl
  | cons x xs ih =>
    rw [List.foldl_cons, processLine_of_blank (h x (List.mem_cons_self _ _))]
    exact ih fun l hl => h l (List.mem_cons_of_mem _ hl)

theorem pushCur_ne_nil {s : List Section} {c : Option Section} :
    pushCur s c ≠ [] ↔ (s ≠ [] ∨ c.isSome = true) := by
  cases c <;> simp [pushCur]

theorem mem_pushCur {s : Section} {secs : List Section} {cur : Option Section}
    (h : s ∈ pushCur secs cur) : s ∈ secs ∨ cur = some s := by
  cases cur with
  | none => exact Or.inl h
  | some c =>
    rcases List.mem_append.mp h with h1 | h2
    · exact Or.inl h1
    · rw [List.mem_singleton] at h2; exact Or.inr (by rw [h2])

/-- The segmentation state machine produces a non-empty section list exactly
when the body contains a non-whitespace character. -/
theorem parseSectionsL_ne_nil_iff (l : List Char) :
    parseSectionsL l ≠ [] ↔ ∃ c ∈ l, jsWS c = false := by
  simp only [parseSectionsL]
  rw [pushCur_ne_nil]
  constructor
  · intro h
    by_contra hex
    have hall : ∀ c ∈ l, jsWS c = true := by
      intro c hc
      rcases Bool.eq_false_or_eq_true (jsWS c) with ht | hf
      · exact ht
      · exact absurd ⟨c, hc, hf⟩ hex
    have hblank : ∀ line ∈ splitLines l, ∀ c ∈ line, jsWS c = true :=
      fun line hl c hc => hall c (splitLines_chars hl c hc)
    rw [foldl_processLine_blank hblank] at h
    rcases h with h | h
    · exact h rfl
    · exact absurd h (by decide)
  · rintro ⟨c, hc, hw⟩
    have hne : c ≠ '\n' := by rintro rfl; exact absurd hw (by decide)
    rcases exists_line_of_mem hc hne with ⟨line, hl, hcl⟩
    exact stOK_foldl_of_mem hl ⟨c, hcl, hw⟩

/-! ### Header-level invariant (claim C5) -/

/-- Header sections always carry a positive heading level. -/
def hdrOK (s : Section) : Prop :=
  s.type = SectionType.header → ∃ n, s.level = some n ∧ 1 ≤ n

def invOK (st : List Section × Option Section) : Prop :=
  (∀ s ∈ st.1, hdrOK s) ∧ (∀ s, st.2 = some s → hdrOK s)

theorem headerLevel_pos (l : List Char) : 1 ≤ headerLevel l := by
  simp only [headerLevel]
  split
  · exact Nat.le_refl 1
  · omega

theorem hdrOK_appendItem {s : Section} (h : hdrOK s) (item : List Char) :
    hdrOK (appendItem s item) := by
  intro ht
  exact h ht

theorem invOK_process {st : List Section × Option Section} {line : List Char}
    (h : invOK st) : invOK (processLine st line) := by
  obtain ⟨h1, h2⟩ := h
  have hpush : ∀ s ∈ pushCur st.1 st.2, hdrOK s := by
    intro s hs
    rcases mem_pushCur hs with hs1 | hs2
    · exact h1 s hs1
    · exact h2 s hs2
  by_cases hh : line.head? = some '#'
  · rw [processLine_header st line hh]
    refine ⟨hpush, ?_⟩
    rintro s hs
    rw [Option.some.injEq] at hs
    subst hs
    intro _
    exact ⟨headerLevel line, rfl, headerLevel_pos line⟩
  · by_cases hl : isListLine line = true
    · cases hc : st.2 with
      | none =>
        rw [processLine_list_none st line hh hl hc]
        refine ⟨h1, ?_⟩
        rintro s hs
        rw [Option.some.injEq] at hs
        subst hs
        intro ht
        simp at ht
      | some c0 =>
        by_cases hty : c0.type = SectionType.list
        · rw [processLine_list_cur_list st line c0 hh hl hc hty]
          refine ⟨h1, ?_⟩
          rintro s hs
          rw [Option.some.injEq] at hs
          subst hs
          exact hdrOK_appendItem (h2 c0 hc) _
        · rw [processLine_list_cur_other st line c0 hh hl hc hty]
          refine ⟨?_, ?_⟩
          · intro s hs
            rcases List.mem_append.mp hs with hs1 | hs2
            · exact h1 s hs1
            · rw [List.mem_singleton] at hs2; subst hs2; exact h2 _ hc
          · rintro s hs
            rw [Option.some.injEq] at hs
            subst hs
            intro ht
            simp at ht
    · by_cases ht : (trimL line).isEmpty = true
      · rw [processLine_skip st line hh hl ht]
        exact ⟨h1, h2⟩
      · cases hc : st.2 with
        | none =>
          rw [processLine_para_none st line hh hl ht hc]
          refine ⟨h1, ?_⟩
          rintro s hs
          rw [Option.some.injEq] at hs
          subst hs
          intro htp
          simp at htp
        | some c0 =>
          by_cases hty1 : c0.type = SectionType.header
          · rw [processLine_para_header st line c0 hh hl ht hc hty1]
            refine ⟨h1, ?_⟩
            rintro s hs
            rw [Option.some.injEq] at hs
            subst hs
            intro htp
            simp at htp
          · by_cases hty2 : c0.type = SectionType.list
            · rw [processLine_para_list st line c0 hh hl ht hc hty2]
              refine ⟨?_, ?_⟩
              · intro s hs
                rcases List.mem_append.mp hs with hs1 | hs2
                · exact h1 s hs1
                · rw [List.mem_singleton] at hs2; subst hs2; exact h2 _ hc
              · rintro s hs
                rw [Option.some.injEq] at hs
                subst hs
                intro htp
                simp at htp
            · rw [processLine_para_append st line c0 hh hl ht hc hty1 hty2]
              refine ⟨h1, ?_⟩
              rintro s hs
              rw [Option.some.injEq] at hs
              subst hs
              intro htp
              exact (h2 c0 hc) htp

theorem invOK_foldl {lines : List (List Char)} {st : List Section × Option Section}
    (h : invOK st) : invOK (lines.foldl processLine st) := by
  induction lines generalizing st with
  | nil => exact h
  | cons x xs ih => exact ih (invOK_process h)

/-- C1: parsing `"# Name\n\n- Skill A\n- Skill B"` yields exactly two
sections: a level-1 header with content "Name", then a list section with
items ["Skill A", "Skill B"] in that order. -/
theorem C1_parse_header_then_list :
    (MarkdownParser.parse "# Name\n\n- Skill A\n- Skill B").sections =
      [{ type := .header, content := "Name".data, level := some 1, items := none },
       { type := .list, content := [], level := none,
         items := some ["Skill A".data, "Skill B".data] }] := by
  decide

/-- C2 counterexample: the input `"---\na: b\n---\n"` contains non-whitespace
characters, yet `MarkdownParser.parse` returns an empty section sequence,
because the whole input is consumed as a front-matter block whose body is
empty. -/
theorem C2_counterexample :
    (∃ c ∈ "---\na: b\n---\n".data, jsWS c = false) ∧
      (MarkdownParser.parse "---\na: b\n---\n").sections = [] := by
  decide

/-- C2 amended: `MarkdownParser.parse` returns a non-empty section sequence
exactly when the BODY content left after front-matter extraction contains at
least one non-whitespace character (an input whose non-whitespace characters
all lie inside the metadata block yields an empty sequence). -/
theorem C2_sections_nonempty_iff (md : String) :
    (MarkdownParser.parse md).sections ≠ [] ↔
      ∃ c ∈ (MarkdownParser.extractFrontMatter md).1, jsWS c = false := by
  have h := parseSectionsL_ne_nil_iff (MarkdownParser.extractFrontMatter md).1
  simpa only [MarkdownParser.parse] using h

/-- C3 counterexample: the line `"-foo"` begins with `-` but is NOT
classified as a list item (the unordered markers require a following
space): it becomes a paragraph section and no list section is produced. -/
theorem C3_counterexample :
    MarkdownParser.parseSections "-foo" =
      [{ type := .paragraph, content := "-foo".data, level := none, items := none }] ∧
      ∀ s ∈ MarkdownParser.parseSections "-foo", ¬ s.type = SectionType.list := by
  decide

/-- C3 amended: every body line beginning with `- ` or `* ` (marker plus
space) or one-or-more digits followed by a period is classified as a list
item: if the currently open section is not already a list it is closed
(appended to the output) and a new list section is opened, and the line with
its leading marker stripped is appended to that list section's items. -/
theorem C3_list_branch (sections : List Section) (cur : Option Section)
    (line : List Char) (hmk : isListLine line = true) :
    ∃ c, (processLine (sections, cur) line).2 = some c ∧
      c.type = SectionType.list ∧
      (cur = none →
        (processLine (sections, cur) line).1 = sections ∧
        c.items = some [stripMarker line]) ∧
      (∀ c0, cur = some c0 → ¬ c0.type = SectionType.list →
        (processLine (sections, cur) line).1 = sections ++ [c0] ∧
        c.items = some [stripMarker line]) ∧
      (∀ c0, cur = some c0 → c0.type = SectionType.list →
        (processLine (sections, cur) line).1 = sections ∧
        c = appendItem c0 (stripMarker line)) := by
  have hh := isListLine_not_hash hmk
  cases cur with
  | none =>
    rw [processLine_list_none (sections, none) line hh hmk rfl]
    refine ⟨⟨.list, [], none, some [stripMarker line]⟩, rfl, rfl, ?_, ?_, ?_⟩
    · intro _; exact ⟨rfl, rfl⟩
    · intro c0 h; exact Option.noConfusion h
    · intro c0 h; exact Option.noConfusion h
  | some c0 =>
    by_cases hty : c0.type = SectionType.list
    · rw [processLine_list_cur_list (sections, some c0) line c0 hh hmk rfl hty]
      refine ⟨appendItem c0 (stripMarker line), rfl, hty, ?_, ?_, ?_⟩
      · intro h; exact Option.noConfusion h
      · intro c1 h hno
        injection h with he
        subst he
        exact absurd hty hno
      · intro c1 h _
        injection h with he
        subst he
        exact ⟨rfl, rfl⟩
    · rw [processLine_list_cur_other (sections, some c0) line c0 hh hmk rfl hty]
      refine ⟨⟨.list, [], none, some [stripMarker line]⟩, rfl, rfl, ?_, ?_, ?_⟩
      · intro h; exact Option.noConfusion h
      · intro c1 h _
        injection h with he
        subst he
        exact ⟨rfl, rfl⟩
      · intro c1 h hl2
        injection h with he
        subst he
        exact absurd hl2 hty

theorem C3_list_branch_witness :
    ∃ c, (processLine ([], none) "- a".data).2 = some c ∧
      c.type = SectionType.list ∧
      ((none : Option Section) = none →
        (processLine ([], none) "- a".data).1 = [] ∧
        c.items = some [stripMarker "- a".data]) ∧
      (∀ c0, (none : Option Section) = some c0 → ¬ c0.type = SectionType.list →
        (processLine ([], none) "- a".data).1 = [] ++ [c0] ∧
        c.items = some [stripMarker "- a".data]) ∧
      (∀ c0, (none : Option Section) = some c0 → c0.type = SectionType.list →
        (processLine ([], none) "- a".data).1 = [] ∧
        c = appendItem c0 (stripMarker "- a".data)) :=
  C3_list_branch [] none "- a".data (by decide)

/-- C4: a non-blank, non-header, non-list line arriving while the open
section is a header reclassifies that section in place to a paragraph and
appends the line to its content joined with a newline; in particular
`"# Title\nBody text"` parses to a single paragraph section whose first
line is the heading text. -/
theorem C4_header_coalesce (sections : List Section) (c0 : Section) (line : List Char)
    (hty : c0.type = SectionType.header)
    (hh : ¬ line.head? = some '#')
    (hmk : ¬ isListLine line = true)
    (hnb : ¬ (trimL line).isEmpty = true) :
    processLine (sections, some c0) line =
      (sections,
       some { c0 with type := .paragraph, content := c0.content ++ '\n' :: line }) ∧
    MarkdownParser.parseSections "# Title\nBody text" =
      [{ type := .paragraph, content := "Title\nBody text".data, level := some 1,
         items := none }] :=
  ⟨processLine_para_header (sections, some c0) line c0 hh hmk hnb rfl hty, by decide⟩

theorem C4_header_coalesce_witness :
    processLine ([], some ⟨SectionType.header, "T".data, some 1, none⟩) "x".data =
      ([], some ⟨SectionType.paragraph, "T\nx".data, some 1, none⟩) ∧
    MarkdownParser.parseSections "# Title\nBody text" =
      [{ type := .paragraph, content := "Title\nBody text".data, level := some 1,
         items := none }] := by
  have h := C4_header_coalesce [] ⟨SectionType.header, "T".data, some 1, none⟩
    "x".data rfl (by decide) (by decide) (by decide)
  exact ⟨h.1.trans (by decide), h.2⟩

/-- C5 counterexample: the input `"####### X"` (seven hashes) produces a
header section whose level is 7, outside the claimed range 1..6 — the
parser does not cap the level at 6. -/
theorem C5_counterexample :
    ∃ s ∈ (MarkdownParser.parse "####### X").sections,
      s.type = SectionType.header ∧ s.level = some 7 ∧ 6 < 7 := by
  decide

/-- C5 amended: every header section in the output of
`MarkdownParser.parse` carries a heading level that is present and at least
1 (equal to the run length of `#`, with no upper cap at 6). -/
theorem C5_header_level_ge_one (md : String) :
    ∀ s ∈ (MarkdownParser.parse md).sections, s.type = SectionType.header →
      ∃ n, s.level = some n ∧ 1 ≤ n := by
  intro s hs ht
  have hinv : invOK ((splitLines (MarkdownParser.extractFrontMatter md).1).foldl
      processLine ([], none)) :=
    invOK_foldl ⟨fun s hs => absurd hs (List.not_mem_nil s),
                 fun s hs => Option.noConfusion hs⟩
  have hs2 : s ∈ pushCur
      ((splitLines (MarkdownParser.extractFrontMatter md).1).foldl
        processLine ([], none)).1
      ((splitLines (MarkdownParser.extractFrontMatter md).1).foldl
        processLine ([], none)).2 := by
    simpa only [MarkdownParser.parse, parseSectionsL] using hs
  rcases mem_pushCur hs2 with h1 | h2
  · exact hinv.1 s h1 ht
  · exact hinv.2 s h2 ht

theorem C5_header_level_witness :
    ∃ n, (Section.mk SectionType.header "A".data (some 1) none).level = some n ∧
      1 ≤ n :=
  C5_header_level_ge_one "# A" ⟨SectionType.header, "A".data, some 1, none⟩
    (by decide) rfl

/-- C10: when the closing `---` of a metadata block is the last line of the
input with no trailing newline, the front-matter regex does not match: no
metadata is extracted and the whole input (delimiters included) is body
content. -/
theorem C10_unclosed_front_matter :
    MarkdownParser.extractFrontMatter "---\nname: X\n---" =
      ("---\nname: X\n---".data, []) := by
  decide

/-! ### Theme color math (src/themes.ts, CSSThemeManager) -/

/-- Round `num / den` to the nearest integer, ties to even (the IEEE-754
rounding used when a real product is converted to a double). -/
def roundHalfEven (num den : Nat) : Nat :=
  if 2 * (num % den) < den then num / den
  else if den < 2 * (num % den) then num / den + 1
  else if num / den % 2 = 0 then num / den else num / den + 1

/-- Number of halvings needed to bring `n` below 2^53, i.e. the number of
bits beyond the 53-bit double significand (the fuel 64 covers every value
below 2^117; the color code only produces values below 2^60). -/
def excessBits : Nat → Nat → Nat
  | 0, _ => 0
  | fuel + 1, n => if n < 2 ^ 53 then 0 else excessBits fuel (n / 2) + 1

/-- Round a natural number to 53 significant bits (nearest, ties to even):
the value an IEEE-754 double acquires when it stores this integer. -/
def toDouble53 (r : Nat) : Nat :=
  if excessBits 64 r = 0 then r
  else roundHalfEven r (2 ^ excessBits 64 r) * 2 ^ excessBits 64 r

/-- `Math.round(2.55 * percent)` for a natural percent, with the IEEE-754
double arithmetic modelled exactly: the double nearest 2.55 is
M / 2^51 with M = 5742089524897382; the exact product percent·M/2^51 is
rounded to the nearest double (53-bit significand, ties to even), and
`Math.round` then takes the nearest integer with ties toward +∞. -/
def jsRound255 (percent : Nat) : Nat :=
  (toDouble53 (percent * 5742089524897382) + 2 ^ 50) / 2 ^ 51

/-- JS `hex.replace('#', '')`: remove the first occurrence of `#`. -/
def removeFirstHash : List Char → List Char
  | [] => []
  | c :: r => if c = '#' then r else c :: removeFirstHash r

/-- Value of a hexadecimal digit, `none` for other characters. -/
def hexDigitVal (c : Char) : Option Nat :=
  if '0' ≤ c ∧ c ≤ '9' then some (c.toNat - 48)
  else if 'a' ≤ c ∧ c ≤ 'f' then some (c.toNat - 87)
  else if 'A' ≤ c ∧ c ≤ 'F' then some (c.toNat - 55)
  else none

def parseHexAcc (acc : Nat) : List Char → Nat
  | [] => acc
  | c :: r =>
    match hexDigitVal c with
    | some d => parseHexAcc (acc * 16 + d) r
    | none => acc

/-- `parseInt(s, 16)` on the inputs the color code feeds it: the value of the
maximal leading run of hex digits (an input with no leading hex digit, which
JS maps to NaN, is modelled as 0). -/
def parseHexNat (l : List Char) : Nat := parseHexAcc 0 l

/-- The channel clamp `(x < 255 ? (x < 1 ? 0 : x) : 255)` that both
`darkenColor` and `lightenColor` inline three times. -/
def clampChannel (x : Int) : Int :=
  if x < 255 then (if x < 1 then 0 else x) else 255

/-- `'#' + (0x1000000 + combined).toString(16).slice(1)`: format as hex
(lowercase) and drop the leading `1`. -/
def hexFormat (v : Int) : List Char :=
  '#' :: (Nat.toDigits 16 v.toNat).drop 1

/-- `CSSThemeManager.darkenColor` on character lists: parse the hex color,
subtract `Math.round(2.55 * percent)` from each channel, clamp, reformat. -/
def darkenColorL (hex : List Char) (percent : Nat) : List Char :=
  let num : Nat := parseHexNat (removeFirstHash hex)
  let amt : Int := (jsRound255 percent : Int)
  let R : Int := ((num >>> 16 : Nat) : Int) - amt
  let G : Int := (((num >>> 8) &&& 0xff : Nat) : Int) - amt
  let B : Int := ((num &&& 0xff : Nat) : Int) - amt
  hexFormat (0x1000000 + clampChannel R * 0x10000 + clampChannel G * 0x100 +
    clampChannel B)

/-- `CSSThemeManager.lightenColor`: same as darken with the adjustment
added instead of subtracted. -/
def lightenColorL (hex : List Char) (percent : Nat) : List Char :=
  let num : Nat := parseHexNat (removeFirstHash hex)
  let amt : Int := (jsRound255 percent : Int)
  let R : Int := ((num >>> 16 : Nat) : Int) + amt
  let G : Int := (((num >>> 8) &&& 0xff : Nat) : Int) + amt
  let B : Int := ((num &&& 0xff : Nat) : Int) + amt
  hexFormat (0x1000000 + clampChannel R * 0x10000 + clampChannel G * 0x100 +
    clampChannel B)

def CSSThemeManager.darkenColor (hex : String) (percent : Nat) : String :=
  String.mk (darkenColorL hex.data percent)

def CSSThemeManager.lightenColor (hex : String) (percent : Nat) : String :=
  String.mk (lightenColorL hex.data percent)

theorem clampChannel_nonpos {x : Int} (h : x ≤ 0) : clampChannel x = 0 := by
  simp only [clampChannel]
  rw [if_pos (by omega : x < 255), if_pos (by omega : x < 1)]

theorem clampChannel_top {x : Int} (h : 255 ≤ x) : clampChannel x = 255 := by
  simp only [clampChannel]
  rw [if_neg (by omega : ¬ x < 255)]

theorem darkenL_black (p : Nat) : darkenColorL "#000000".data p = "#000000".data := by
  have h0 : parseHexNat (removeFirstHash "#000000".data) = 0 := rfl
  simp only [darkenColorL, h0, Nat.zero_shiftRight, Nat.zero_and, Nat.cast_zero]
  have hc : clampChannel (0 - (jsRound255 p : Int)) = 0 :=
    clampChannel_nonpos (by omega)
  rw [hc]
  decide

theorem lightenL_white (p : Nat) :
    lightenColorL "#ffffff".data p = "#ffffff".data := by
  have h0 : parseHexNat (removeFirstHash "#ffffff".data) = 16777215 := rfl
  have h1 : ((16777215 : Nat) >>> 16) = 255 := rfl
  have h2 : (((16777215 : Nat) >>> 8) &&& 0xff) = 255 := rfl
  have h3 : ((16777215 : Nat) &&& 0xff) = 255 := rfl
  simp only [lightenColorL, h0, h1, h2, h3]
  have hc : clampChannel (((255 : Nat) : Int) + (jsRound255 p : Int)) = 255 :=
    clampChannel_top (by omega)
  rw [hc]
  decide

/-- C7: darkening black and lightening white are no-ops for every integer
percent in [0, 100] (the channels are already at the clamp boundary). -/
theorem C7_darken_black_lighten_white (p : Nat) (_hp : p ≤ 100) :
    CSSThemeManager.darkenColor "#000000" p = "#000000" ∧
    CSSThemeManager.lightenColor "#ffffff" p = "#ffffff" := by
  constructor
  · show String.mk (darkenColorL "#000000".data p) = "#000000"
    rw [darkenL_black]
  · show String.mk (lightenColorL "#ffffff".data p) = "#ffffff"
    rw [lightenL_white]

theorem C7_darken_black_lighten_white_witness :
    CSSThemeManager.darkenColor "#000000" 37 = "#000000" ∧
    CSSThemeManager.lightenColor "#ffffff" 37 = "#ffffff" :=
  C7_darken_black_lighten_white 37 (by decide)

/-! ### Theme discovery (src/css-theme-manager.ts) -/

/-- JS `String.prototype.includes`. -/
def containsSeg : List Char → List Char → Bool
  | [], pat => pat.isPrefixOf []
  | c :: r, pat => pat.isPrefixOf (c :: r) || containsSeg r pat

/-- `isThemeCustomizable`: the CSS text contains the `--theme-primary`
token. -/
def isThemeCustomizable (css : List Char) : Bool :=
  containsSeg css "--theme-primary".data

/-- The `\s*[^;]+;` part of the variable regexes, applied to the text after
the literal `--theme-<name>:` anchor: succeeds iff a `;` occurs and at least
one character precedes it; the matched span runs through that first `;`. -/
def varSeg (rest : List Char) : Option (List Char) :=
  let seg := rest.takeWhile fun c => c != ';'
  if seg.length < rest.length ∧ ¬ seg.isEmpty then some seg else none

/-- First match of the regex `--theme-<name>:\s*([^;]+);` in the CSS text: the
trimmed capture (greedy `\s*` plus backtracking make `match[1].trim()` equal
the trim of the whole segment between the colon and the `;`). -/
def extractVar (varLit : List Char) : List Char → Option (List Char)
  | [] => none
  | c :: r =>
    if varLit.isPrefixOf (c :: r) then
      match varSeg ((c :: r).drop varLit.length) with
      | some seg => some (trimL seg)
      | none => extractVar varLit r
    else extractVar varLit r

def CSSThemeManager.extractPrimaryColor (css : List Char) : Option (List Char) :=
  extractVar "--theme-primary:".data css

def CSSThemeManager.extractSecondaryColor (css : List Char) : Option (List Char) :=
  extractVar "--theme-secondary:".data css

def CSSThemeManager.extractAccentColor (css : List Char) : Option (List Char) :=
  extractVar "--theme-accent:".data css

/-- JS `str.split(sep)` for a single-character separator. -/
def splitOnChar (sep : Char) : List Char → List (List Char)
  | [] => [[]]
  | c :: rest =>
    if c = sep then [] :: splitOnChar sep rest
    else (c :: (splitOnChar sep rest).headI) :: (splitOnChar sep rest).tail

/-- `word.charAt(0).toUpperCase() + word.slice(1)` (ASCII case mapping). -/
def capitalizeWord : List Char → List Char
  | [] => []
  | c :: r => c.toUpper :: r

/-- JS `Array.prototype.join(sep)`. -/
def joinWith (sep : List Char) : List (List Char) → List Char
  | [] => []
  | [x] => x
  | x :: y :: ys => x ++ sep ++ joinWith sep (y :: ys)

/-- `formatDisplayName`: split the theme name on `-`, capitalize each word,
join with spaces. -/
def formatDisplayName (themeName : List Char) : List Char :=
  joinWith [' '] ((splitOnChar '-' themeName).map capitalizeWord)

/-- `ThemeInfo` from src/css-theme-manager.ts. -/
structure ThemeInfo where
  name : List Char
  displayName : List Char
  cssPath : List Char
  customizable : Bool
  primaryColor : Option (List Char) := none
  secondaryColor : Option (List Char) := none
  accentColor : Option (List Char) := none
deriving DecidableEq, Repr

/-- JS `str.replace(pat, repl)` for a literal (non-regex) pattern: replace
the first occurrence only. -/
def replaceFirstAux (pat repl : List Char) : List Char → List Char
  | [] => []
  | c :: r =>
    if pat.isPrefixOf (c :: r) then repl ++ (c :: r).drop pat.length
    else c :: replaceFirstAux pat repl r

def replaceFirstL (pat repl l : List Char) : List Char :=
  if pat.isEmpty then repl ++ l else replaceFirstAux pat repl l

/-- The directory-listing filter of `discoverThemes`:
`file.startsWith('theme-') && file.endsWith('.css')`. -/
def themeFileFilter (fileName : List Char) : Bool :=
  "theme-".data.isPrefixOf fileName && ".css".data.isSuffixOf fileName

/-- JS `Map.prototype.set`: overwrite in place if the key exists, else
append (insertion order preserved). -/
def mapSet (m : List (List Char × ThemeInfo)) (k : List Char) (v : ThemeInfo) :
    List (List Char × ThemeInfo) :=
  if m.any (fun p => p.1 == k) then
    m.map fun p => if p.1 == k then (k, v) else p
  else m ++ [(k, v)]

/-- The per-file body of the `discoverThemes` loop.  `content` stands for
the text `fs.readFile` returns for this file (each extraction re-reads the
same path, so a single content models all four reads), and `themesDir` for
the resolved directory used by `path.join`. -/
def themeInfoOfFile (themesDir fileName content : List Char) : ThemeInfo :=
  let themeName := replaceFirstL ".css".data [] (replaceFirstL "theme-".data [] fileName)
  let customizable := isThemeCustomizable content
  { name := themeName
    displayName := formatDisplayName themeName
    cssPath := themesDir ++ '/' :: fileName
    customizable := customizable
    primaryColor :=
      if customizable then CSSThemeManager.extractPrimaryColor content else none
    secondaryColor :=
      if customizable then CSSThemeManager.extractSecondaryColor content else none
    accentColor :=
      if customizable then CSSThemeManager.extractAccentColor content else none }

def discoverStep (themesDir : List Char) (m : List (List Char × ThemeInfo))
    (f : List Char × List Char) : List (List Char × ThemeInfo) :=
  let info := themeInfoOfFile themesDir f.1 f.2
  mapSet m info.name info

/-- `CSSThemeManager.discoverThemes` with the directory listing supplied as
(file name, file content) pairs: keep the `theme-*.css` files and build the
theme map in listing order. -/
def CSSThemeManager.discoverThemes (themesDir : List Char)
    (files : List (List Char × List Char)) : List (List Char × ThemeInfo) :=
  (files.filter fun f => themeFileFilter f.1).foldl (discoverStep themesDir) []

/-- `CSSThemeManager.getAvailableThemes`. -/
def CSSThemeManager.getAvailableThemes
    (themes : List (List Char × ThemeInfo)) : List ThemeInfo :=
  themes.map Prod.snd

/-- The spec's notion of a well-formed 6-hex-digit color string (written
from the spec's words, for comparison with what the code produces). -/
def isHexColor6 : List Char → Bool
  | '#' :: rest => rest.length = 6 && rest.all fun c => (hexDigitVal c).isSome
  | _ => false

theorem mem_trimL {c : Char} {l : List Char} (h : c ∈ trimL l) : c ∈ l := by
  unfold trimL at h
  rw [List.mem_reverse] at h
  have h2 := mem_of_mem_dropWhileL h
  rw [List.mem_reverse] at h2
  exact mem_of_mem_dropWhileL h2

/-- Whatever `extractVar` captures is the trim of a semicolon-free segment,
hence itself semicolon-free. -/
theorem extractVar_ok {lit css v : List Char} (h : extractVar lit css = some v) :
    (∃ seg, v = trimL seg ∧ seg.all (fun c => c != ';') = true) ∧
      v.all (fun c => c != ';') = true := by
  induction css with
  | nil => simp [extractVar] at h
  | cons c r ih =>
    rw [extractVar] at h
    by_cases hp : lit.isPrefixOf (c :: r) = true
    · rw [if_pos hp] at h
      cases hv : varSeg ((c :: r).drop lit.length) with
      | none => rw [hv] at h; exact ih h
      | some seg =>
        rw [hv] at h
        injection h with he
        subst he
        have hseg : seg.all (fun c => c != ';') = true := by
          simp only [varSeg] at hv
          split at hv
          · injection hv with h2
            subst h2
            rw [List.all_eq_true]
            intro x hx
            have hx2 := List.mem_takeWhile_imp hx
            simpa using hx2
          · exact Option.noConfusion hv
        refine ⟨⟨seg, rfl, hseg⟩, ?_⟩
        rw [List.all_eq_true] at hseg ⊢
        intro x hx
        exact hseg x (mem_trimL hx)
    · rw [if_neg hp] at h
      exact ih h

/-- Every present color field is the trim of a semicolon-free captured
segment; a non-customizable descriptor has no color fields at all. -/
def colorOK (o : Option (List Char)) : Prop :=
  ∀ v, o = some v →
    (∃ seg, v = trimL seg ∧ seg.all (fun c => c != ';') = true) ∧
      v.all (fun c => c != ';') = true

def infoOK (t : ThemeInfo) : Prop :=
  (t.customizable = false →
    t.primaryColor = none ∧ t.secondaryColor = none ∧ t.accentColor = none) ∧
  colorOK t.primaryColor ∧ colorOK t.secondaryColor ∧ colorOK t.accentColor

theorem colorOK_ite (b : Bool) (lit content : List Char) :
    colorOK (if b = true then extractVar lit content else none) := by
  intro v hv
  by_cases hb : b = true
  · rw [if_pos hb] at hv
    exact extractVar_ok hv
  · rw [if_neg hb] at hv
    exact Option.noConfusion hv

theorem themeInfoOfFile_ok (d f content : List Char) :
    infoOK (themeInfoOfFile d f content) := by
  constructor
  · intro hcust
    simp only [themeInfoOfFile] at hcust ⊢
    rw [hcust]
    exact ⟨rfl, rfl, rfl⟩
  · refine ⟨?_, ?_, ?_⟩ <;>
      exact colorOK_ite (isThemeCustomizable content) _ content

theorem mem_mapSet {m : List (List Char × ThemeInfo)} {k : List Char}
    {v : ThemeInfo} {p : List Char × ThemeInfo} (h : p ∈ mapSet m k v) :
    p ∈ m ∨ p.2 = v := by
  unfold mapSet at h
  split at h
  · rcases List.mem_map.mp h with ⟨q, hq, hfq⟩
    by_cases hqk : (q.1 == k) = true
    · rw [if_pos hqk] at hfq
      right; rw [← hfq]
    · rw [if_neg hqk] at hfq
      left; rw [← hfq]; exact hq
  · rcases List.mem_append.mp h with h1 | h2
    · exact Or.inl h1
    · rw [List.mem_singleton] at h2
      right; rw [h2]

theorem discoverFold_infoOK (d : List Char) (fs : List (List Char × List Char))
    (m : List (List Char × ThemeInfo)) (hm : ∀ p ∈ m, infoOK p.2) :
    ∀ p ∈ fs.foldl (discoverStep d) m, infoOK p.2 := by
  induction fs generalizing m with
  | nil => exact hm
  | cons f fs ih =>
    rw [List.foldl_cons]
    refine ih _ ?_
    intro q hq
    rcases mem_mapSet hq with h1 | h2
    · exact hm q h1
    · rw [h2]
      exact themeInfoOfFile_ok d f.1 f.2

/-- C6 counterexample: discovery of a theme file whose declaration is
`--theme-primary: red;` produces a descriptor whose primary color is the
string "red" — not a 6-hex-digit color — while its secondary and accent
fields are absent (a partial color state). -/
theorem C6_counterexample :
    ∃ p ∈ CSSThemeManager.discoverThemes "themes".data
        [("theme-bad.css".data, "--theme-primary: red;".data)],
      p.2.customizable = true ∧ p.2.primaryColor = some "red".data ∧
      isHexColor6 "red".data = false ∧ p.2.secondaryColor = none ∧
      p.2.accentColor = none := by
  decide

/-- C6 amended: for every descriptor produced by theme discovery, each color
field is either absent or the trimmed, semicolon-free text captured from its
variable declaration (an arbitrary string, not necessarily a hex color), and
a non-customizable descriptor has all three color fields absent; the fields
are otherwise independent, so partially-present states occur. -/
theorem C6_color_fields (d : List Char) (files : List (List Char × List Char))
    (t : ThemeInfo)
    (ht : t ∈ CSSThemeManager.getAvailableThemes
      (CSSThemeManager.discoverThemes d files)) :
    (t.customizable = false →
      t.primaryColor = none ∧ t.secondaryColor = none ∧ t.accentColor = none) ∧
    colorOK t.primaryColor ∧ colorOK t.secondaryColor ∧ colorOK t.accentColor := by
  rcases List.mem_map.mp ht with ⟨p, hp, hpt⟩
  have h := discoverFold_infoOK d (files.filter fun f => themeFileFilter f.1) []
    (fun q hq => absurd hq (List.not_mem_nil q)) p hp
  rw [← hpt]
  exact h

theorem C6_color_fields_witness :
    ((themeInfoOfFile "themes".data "theme-a.css".data
        "--theme-primary: #112233;".data).customizable = false →
      (themeInfoOfFile "themes".data "theme-a.css".data
        "--theme-primary: #112233;".data).primaryColor = none ∧
      (themeInfoOfFile "themes".data "theme-a.css".data
        "--theme-primary: #112233;".data).secondaryColor = none ∧
      (themeInfoOfFile "themes".data "theme-a.css".data
        "--theme-primary: #112233;".data).accentColor = none) ∧
    colorOK (themeInfoOfFile "themes".data "theme-a.css".data
      "--theme-primary: #112233;".data).primaryColor ∧
    colorOK (themeInfoOfFile "themes".data "theme-a.css".data
      "--theme-primary: #112233;".data).secondaryColor ∧
    colorOK (themeInfoOfFile "themes".data "theme-a.css".data
      "--theme-primary: #112233;".data).accentColor :=
  C6_color_fields "themes".data
    [("theme-a.css".data, "--theme-primary: #112233;".data)]
    (themeInfoOfFile "themes".data "theme-a.css".data
      "--theme-primary: #112233;".data)
    (by decide)

/-! ### Theme registry lookup and customization (src/themes.ts,
src/css-theme-manager.ts) -/

/-- `Theme.fonts` from src/types.ts. -/
structure FontSet where
  body : List Char
  heading : List Char
  monospace : List Char
deriving DecidableEq, Repr

/-- `Theme.colors` from src/types.ts. -/
structure ColorSet where
  primary : List Char
  secondary : List Char
  text : List Char
  background : List Char
  accent : List Char
deriving DecidableEq, Repr

/-- `Theme.spacing` from src/types.ts (`lineHeight` is a JS number; the
values the code uses are exact decimals, modelled as rationals). -/
structure SpacingSet where
  margin : List Char
  padding : List Char
  lineHeight : Rat
deriving DecidableEq, Repr

/-- `Theme.sizes` from src/types.ts. -/
structure SizeSet where
  h1 : List Char
  h2 : List Char
  h3 : List Char
  body : List Char
  small : List Char
deriving DecidableEq, Repr

/-- `Theme` from src/types.ts. -/
structure Theme where
  name : List Char
  fonts : FontSet
  colors : ColorSet
  spacing : SpacingSet
  sizes : SizeSet
deriving DecidableEq, Repr

/-- JS `Map.prototype.get` on an insertion-ordered association list. -/
def assocLookup {α : Type} : List (List Char × α) → List Char → Option α
  | [], _ => none
  | p :: r, k => if p.1 == k then some p.2 else assocLookup r k

/-- `ThemeManager.getTheme`: look the theme up by name; on failure throw
`Theme '<name>' not found. Available themes: <keys joined by ", ">`. -/
def ThemeManager.getTheme (themes : List (List Char × Theme)) (name : List Char) :
    Except (List Char) Theme :=
  match assocLookup themes name with
  | some t => Except.ok t
  | none =>
    Except.error ("Theme \x27".data ++ name ++
      "\x27 not found. Available themes: ".data ++
      joinWith ", ".data (themes.map Prod.fst))

/-- `ThemeCustomization` from src/css-theme-manager.ts. -/
structure ThemeCustomization where
  primaryColor : Option (List Char) := none
  secondaryColor : Option (List Char) := none
  accentColor : Option (List Char) := none
deriving DecidableEq, Repr

/-- JS truthiness of a `string | undefined` field (`undefined` and the
empty string are falsy). -/
def jsTruthyStr : Option (List Char) → Bool
  | some s => !s.isEmpty
  | none => false

/-- First-match replacement of the regex `--theme-<name>:\s*[^;]+;` by a
replacement string (the `.replace(regex, text)` calls of
`applyCustomization`). -/
def replaceVarDecl (lit repl : List Char) : List Char → List Char
  | [] => []
  | c :: r =>
    if lit.isPrefixOf (c :: r) then
      match varSeg ((c :: r).drop lit.length) with
      | some seg => repl ++ ((c :: r).drop lit.length).drop (seg.length + 1)
      | none => c :: replaceVarDecl lit repl r
    else c :: replaceVarDecl lit repl r

/-- `CSSThemeManager.applyCustomization`: replace the primary declaration
(and its derived dark/light variants, computed by darken/lighten at 20%),
then the secondary and accent declarations, for each override present. -/
def applyCustomization (css : List Char) (cust : ThemeCustomization) : List Char :=
  let c1 :=
    if jsTruthyStr cust.primaryColor then
      let p := cust.primaryColor.getD []
      replaceVarDecl "--theme-primary-light:".data
        ("--theme-primary-light: ".data ++ lightenColorL p 20 ++ [';'])
        (replaceVarDecl "--theme-primary-dark:".data
          ("--theme-primary-dark: ".data ++ darkenColorL p 20 ++ [';'])
          (replaceVarDecl "--theme-primary:".data
            ("--theme-primary: ".data ++ p ++ [';']) css))
    else css
  let c2 :=
    if jsTruthyStr cust.secondaryColor then
      replaceVarDecl "--theme-secondary:".data
        ("--theme-secondary: ".data ++ cust.secondaryColor.getD [] ++ [';']) c1
    else c1
  if jsTruthyStr cust.accentColor then
    replaceVarDecl "--theme-accent:".data
      ("--theme-accent: ".data ++ cust.accentColor.getD [] ++ [';']) c2
  else c2

/-- `CSSThemeManager.getThemeCSS`: look the theme up; on failure throw
`Theme '<name>' not found` (no list of known names); on success read the
file (`readFile` stands for the host filesystem) and apply the
customization when one is supplied and the theme is customizable. -/
def CSSThemeManager.getThemeCSS (themes : List (List Char × ThemeInfo))
    (readFile : List Char → List Char) (name : List Char)
    (customization : Option ThemeCustomization) : Except (List Char) (List Char) :=
  match assocLookup themes name with
  | none => Except.error ("Theme \x27".data ++ name ++ "\x27 not found".data)
  | some theme =>
    let cssContent := readFile theme.cssPath
    match customization with
    | some cust =>
      if theme.customizable then Except.ok (applyCustomization cssContent cust)
      else Except.ok cssContent
    | none => Except.ok cssContent

theorem mem_joinWith {sep t : List Char} {l : List (List Char)} (h : t ∈ l) :
    ∃ pre post, joinWith sep l = pre ++ t ++ post := by
  induction l with
  | nil => cases h
  | cons x xs ih =>
    rcases List.mem_cons.mp h with rfl | hm
    · cases xs with
      | nil => exact ⟨[], [], by simp [joinWith]⟩
      | cons y ys =>
        exact ⟨[], sep ++ joinWith sep (y :: ys), by simp [joinWith]⟩
    · cases xs with
      | nil => cases hm
      | cons y ys =>
        rcases ih hm with ⟨pre, post, hpp⟩
        refine ⟨x ++ sep ++ pre, post, ?_⟩
        simp only [joinWith, hpp]
        simp [List.append_assoc]

/-- A concrete theme definition (shape of the `modern` entry built by
`ThemeManager.generateThemeFromCSS`), used for concrete instances. -/
def sampleTheme : Theme :=
  { name := "modern".data
    fonts := ⟨"Arial, sans-serif".data, "Arial, sans-serif".data,
      "Courier New, monospace".data⟩
    colors := ⟨"#2c3e50".data, "#3498db".data, "#000000".data, "#ffffff".data,
      "#e74c3c".data⟩
    spacing := ⟨"40px".data, "20px".data, (8 : Rat) / 5⟩
    sizes := ⟨"24px".data, "18px".data, "16px".data, "12px".data, "11px".data⟩ }

/-- A concrete discovered descriptor for a `theme-modern.css` file. -/
def sampleInfo : ThemeInfo :=
  themeInfoOfFile "themes".data "theme-modern.css".data
    "--theme-primary: #2c3e50;".data

/-- C8 counterexample: with the registry containing only `modern`,
`CSSThemeManager.getThemeCSS` for the unknown name `nope` fails with the
message `Theme 'nope' not found`, which does NOT enumerate the known theme
names (the name "modern" does not occur in it). -/
theorem C8_counterexample :
    CSSThemeManager.getThemeCSS [("modern".data, sampleInfo)] (fun _ => [])
        "nope".data none =
      Except.error "Theme \x27nope\x27 not found".data ∧
    containsSeg "Theme \x27nope\x27 not found".data "modern".data = false := by
  exact ⟨rfl, by decide⟩

/-- C8 amended: for every theme name not present in the registry,
`ThemeManager.getTheme` fails with a "theme not found" error whose message
contains every currently known theme name, while
`CSSThemeManager.getThemeCSS` fails with the plain message
`Theme '<name>' not found`, which names only the requested theme. -/
theorem C8_theme_not_found (themes : List (List Char × Theme))
    (cssThemes : List (List Char × ThemeInfo)) (readFile : List Char → List Char)
    (cust : Option ThemeCustomization) (name : List Char)
    (h1 : assocLookup themes name = none) (h2 : assocLookup cssThemes name = none) :
    (∃ msg, ThemeManager.getTheme themes name = Except.error msg ∧
      ∀ t ∈ themes.map Prod.fst, ∃ pre post, msg = pre ++ t ++ post) ∧
    CSSThemeManager.getThemeCSS cssThemes readFile name cust =
      Except.error ("Theme \x27".data ++ name ++ "\x27 not found".data) := by
  constructor
  · refine ⟨"Theme \x27".data ++ name ++ "\x27 not found. Available themes: ".data ++
      joinWith ", ".data (themes.map Prod.fst), ?_, ?_⟩
    · unfold ThemeManager.getTheme
      rw [h1]
    · intro t ht
      rcases mem_joinWith ht with ⟨pre, post, hpp⟩
      refine ⟨"Theme \x27".data ++ name ++
        "\x27 not found. Available themes: ".data ++ pre, post, ?_⟩
      rw [hpp]
      simp [List.append_assoc]
  · unfold CSSThemeManager.getThemeCSS
    rw [h2]

theorem C8_theme_not_found_witness :
    (∃ msg, ThemeManager.getTheme [("modern".data, sampleTheme)] "nope".data =
        Except.error msg ∧
      ∀ t ∈ ([("modern".data, sampleTheme)]).map Prod.fst,
        ∃ pre post, msg = pre ++ t ++ post) ∧
    CSSThemeManager.getThemeCSS [("modern".data, sampleInfo)] (fun _ => [])
        "nope".data none =
      Except.error ("Theme \x27".data ++ "nope".data ++ "\x27 not found".data) :=
  C8_theme_not_found [("modern".data, sampleTheme)] [("modern".data, sampleInfo)]
    (fun _ => []) none "nope".data (by decide) (by decide)

/-! ### Structural converter (src/word-converter.ts, WordRenderer) -/

/-- Output unit of `WordRenderer.parseContentToElements`:
`type` ∈ {heading, paragraph, list-item}. -/
inductive WordElementType
  | heading
  | paragraph
  | listItem
deriving DecidableEq, Repr

structure WordElement where
  type : WordElementType
  text : List Char
  level : Option Nat := none
deriving DecidableEq, Repr

/-- The global replace `html.replace(/<[^>]*>/g, '')`: repeatedly delete the
leftmost `<`...`>` span; a `<` with no later `>` is kept.  The fuel (the
input length) makes the skip-ahead recursion structural. -/
def stripTagsAux : Nat → List Char → List Char
  | 0, l => l
  | _, [] => []
  | fuel + 1, c :: r =>
    if c = '<' then
      let seg := r.takeWhile fun x => x != '>'
      if seg.length < r.length then stripTagsAux fuel (r.drop (seg.length + 1))
      else c :: stripTagsAux fuel r
    else c :: stripTagsAux fuel r

/-- `stripHtmlTags`: delete all tag spans, then trim. -/
def stripHtmlTagsL (html : List Char) : List Char :=
  trimL (stripTagsAux html.length html)

/-- One alternative of the wrapper-tag test: the word, then whitespace or
`>`. -/
def tagWordTest (w l : List Char) : Bool :=
  w.isPrefixOf l &&
    match (l.drop w.length).head? with
    | some c => jsWS c || c = '>'
    | none => false

/-- The skip test `/^<\/?(?:html|body|div|section|article)(?:\s|>)/`. -/
def isWrapperLine (l : List Char) : Bool :=
  match l with
  | '<' :: rest =>
    (if rest.head? = some '/' then rest.tail else rest) |> fun rest2 =>
      tagWordTest "html".data rest2 || tagWordTest "body".data rest2 ||
      tagWordTest "div".data rest2 || tagWordTest "section".data rest2 ||
      tagWordTest "article".data rest2
  | _ => false

/-- The opening part `<tag[^>]*>` of the tag regexes at a fixed position:
on success return the text after the `>` (the span is deterministic: the
greedy `[^>]*` runs to the first `>`). -/
def tagOpenRest (tag l : List Char) : Option (List Char) :=
  if ('<' :: tag).isPrefixOf l then
    let after := l.drop (tag.length + 1)
    let seg := after.takeWhile fun c => c != '>'
    if seg.length < after.length then some (after.drop (seg.length + 1)) else none
  else none

/-- The lazy `(.*?)` followed by a literal closing tag: the EARLIEST
occurrence of the closing literal wins, and `.` cannot cross a line
terminator.  Returns (capture, text after the close). -/
def findClose (close : List Char) : List Char → Option (List Char × List Char)
  | [] => none
  | c :: r =>
    if close.isPrefixOf (c :: r) then some ([], (c :: r).drop close.length)
    else if c = '\n' || c = '\x0d' then none
    else (findClose close r).map fun p => (c :: p.1, p.2)

/-- First match of `<tag[^>]*>(.*?)</tag>` anywhere in the line, returning
the capture: positions are tried left to right; at each position the open
part is deterministic and the close is the earliest reachable one. -/
def matchTagCapture (tag : List Char) : List Char → Option (List Char)
  | [] => none
  | c :: r =>
    (match tagOpenRest tag (c :: r) with
     | some rest =>
       match findClose ('<' :: '/' :: tag ++ ['>']) rest with
       | some p => some p.1
       | none => none
     | none => none).orElse fun _ => matchTagCapture tag r

/-- `looksLikeCode`: keyword heuristics for style/script residue. -/
def looksLikeCode (text : List Char) : Bool :=
  containsSeg text ['\x7b'] || containsSeg text ['\x7d'] ||
  containsSeg text "function".data || containsSeg text "const ".data ||
  containsSeg text "var ".data || containsSeg text "let ".data ||
  containsSeg text "margin:".data || containsSeg text "padding:".data ||
  containsSeg text "font-".data || containsSeg text "color:".data ||
  containsSeg text "background".data || containsSeg text "border".data ||
  containsSeg text "ws.on".data || containsSeg text "location.reload".data ||
  containsSeg text "Theme:".data

/-- One iteration of the `for (const line of lines)` loop of
`WordRenderer.parseContentToElements`: at most one element per line,
first-match-wins in source order (skip tests, h1, h2, h3, li, p, bare
text). -/
def classifyLine (line : List Char) : Option WordElement :=
  let trimmed := trimL line
  if trimmed.isEmpty then none
  else if "<!".data.isPrefixOf trimmed then none
  else if isWrapperLine trimmed then none
  else match matchTagCapture "h1".data trimmed with
  | some cap => some ⟨.heading, stripHtmlTagsL cap, some 1⟩
  | none => match matchTagCapture "h2".data trimmed with
  | some cap => some ⟨.heading, stripHtmlTagsL cap, some 2⟩
  | none => match matchTagCapture "h3".data trimmed with
  | some cap => some ⟨.heading, stripHtmlTagsL cap, some 2⟩
  | none => match matchTagCapture "li".data trimmed with
  | some cap => some ⟨.listItem, stripHtmlTagsL cap, none⟩
  | none => match matchTagCapture "p".data trimmed with
  | some cap =>
    if (trimL (stripHtmlTagsL cap)).isEmpty then none
    else some ⟨.paragraph, stripHtmlTagsL cap, none⟩
  | none =>
    if ¬ (trimL (stripHtmlTagsL trimmed)).isEmpty ∧
        looksLikeCode (stripHtmlTagsL trimmed) = false then
      some ⟨.paragraph, stripHtmlTagsL trimmed, none⟩
    else none

/-- `WordRenderer.parseContentToElements`. -/
def WordRenderer.parseContentToElements (content : String) : List WordElement :=
  (splitLines content.data).filterMap classifyLine

/-- C9 counterexample: the line `"<h1>A</h1> <h3>B</h3>"` contains a
level-3 heading tag, yet the emitted element is a heading of level 1 (the
h1 rule matches first) — no level-2 heading element is produced for it. -/
theorem C9_counterexample :
    WordRenderer.parseContentToElements "<h1>A</h1> <h3>B</h3>" =
      [⟨WordElementType.heading, "A".data, some 1⟩] ∧
    ∀ e ∈ WordRenderer.parseContentToElements "<h1>A</h1> <h3>B</h3>",
      ¬ (e.type = WordElementType.heading ∧ e.level = some 2) := by
  decide

/-- C9 amended: a line that survives the skip tests, matches no h1 or h2
tag, and matches the h3 pattern with capture `cap` is emitted as a heading
element of level 2 (the same tier as h2) with the tag-stripped capture; in
particular `"<h3>Projects</h3>"` yields exactly a level-2 heading element
with text "Projects". -/
theorem C9_h3_flatten (line cap : List Char)
    (hsk1 : ¬ (trimL line).isEmpty = true)
    (hsk2 : ¬ "<!".data.isPrefixOf (trimL line) = true)
    (hsk3 : ¬ isWrapperLine (trimL line) = true)
    (hm1 : matchTagCapture "h1".data (trimL line) = none)
    (hm2 : matchTagCapture "h2".data (trimL line) = none)
    (hm3 : matchTagCapture "h3".data (trimL line) = some cap) :
    classifyLine line =
      some ⟨WordElementType.heading, stripHtmlTagsL cap, some 2⟩ ∧
    WordRenderer.parseContentToElements "<h3>Projects</h3>" =
      [⟨WordElementType.heading, "Projects".data, some 2⟩] := by
  constructor
  · simp only [classifyLine, if_neg hsk1, if_neg hsk2, if_neg hsk3, hm1, hm2, hm3]
  · decide

theorem C9_h3_flatten_witness :
    classifyLine "<h3>X</h3>".data =
      some ⟨WordElementType.heading, stripHtmlTagsL "X".data, some 2⟩ ∧
    WordRenderer.parseContentToElements "<h3>Projects</h3>" =
      [⟨WordElementType.heading, "Projects".data, some 2⟩] :=
  C9_h3_flatten "<h3>X</h3>".data "X".data (by decide) (by decide) (by decide)
    (by decide) (by decide) (by decide)

end CVCraft
